import Mathlib

/-!
Verification development for the `cyber_iron_dome` daemon
(`src/inotify_watcher.py`, `src/monitors.py`, `src/iron_dome.py`).

The Python code is shallowly embedded: byte buffers become `List (Fin 256)`,
Python floats become real numbers, the per-file entropy baseline becomes a
function `String → Option ℝ`, OS interaction (file reads, the `/dev/urandom`
reader probe, `/proc` sampling) is abstracted into explicit parameters, and
the `"%.2f"` float formatting of f-strings is abstracted into a parameter
`fmt : ℝ → String`.  Emitted log lines become lists of strings / records.
-/

namespace IronDome

/-- A byte value, as stored in a Python `bytes` object. -/
abbrev Byte := Fin 256

/-- Substring containment on strings (Python's `sub in s`), as infix of the
character lists. -/
def containsStr (s sub : String) : Prop := sub.data <:+: s.data

instance (s sub : String) : Decidable (containsStr s sub) := by
  unfold containsStr; infer_instance

/-- `InotifyWatcher._shannon_entropy` (inotify_watcher.py, lines 113-136):
builds a count for each of the 256 possible byte values, skips the zero
counts, and accumulates `-(p * log2 p)` with `p = count / len(data)`. -/
noncomputable def shannon_entropy (data : List Byte) : ℝ :=
  ∑ b : Byte,
    if data.count b = 0 then 0
    else -((data.count b : ℝ) / (data.length : ℝ) *
      Real.logb 2 ((data.count b : ℝ) / (data.length : ℝ)))

/-- Rendering of a set of PIDs, as Python prints a non-empty `set[int]`:
`\x7b8, 42\x7d`.  The enumeration order is fixed to ascending (Python's order is
hash-dependent; only membership matters for the claims). -/
def joinSep : List String → String
  | [] => ""
  | [s] => s
  | s :: rest => s ++ ", " ++ joinSep rest

/-- Python `str` of a set of PIDs. -/
def pidsRepr (pids : Finset ℕ) : String :=
  "\x7b" ++ joinSep ((pids.sort (· ≤ ·)).map Nat.repr) ++ "\x7d"

/-- The watcher state the anomaly detector touches: `self._file_entropy`. -/
structure WatcherState where
  file_entropy : String → Option ℝ

/-- Warning of inotify_watcher.py line 152. -/
def deletedMsg (full_path : String) : String :=
  "File deleted after write: " ++ full_path

/-- Warning of inotify_watcher.py line 155. -/
def emptyMsg (full_path : String) : String :=
  "File empty after write: " ++ full_path

/-- Warning of inotify_watcher.py lines 164-168 (new file, crypto PIDs). -/
def cryptoNewMsg (fmt : ℝ → String) (full_path : String) (e : ℝ)
    (pids : Finset ℕ) : String :=
  "Cryptographic activity detected: " ++ full_path ++
    " (entropy: " ++ fmt e ++ ", suspicious PIDs " ++ pidsRepr pids ++ ")"

/-- Warning of inotify_watcher.py lines 170-173 (new file, no crypto PIDs). -/
def newHighMsg (fmt : ℝ → String) (full_path : String) (e : ℝ) : String :=
  "New file high entropy detected: " ++ full_path ++
    " (entropy: " ++ fmt e ++ ")"

/-- Warning of inotify_watcher.py lines 179-184 (known file, crypto PIDs). -/
def cryptoKnownMsg (fmt : ℝ → String) (full_path : String)
    (prev cur delta : ℝ) (pids : Finset ℕ) : String :=
  "Cryptographic activity detected: " ++ full_path ++
    " (" ++ fmt prev ++ " -> " ++ fmt cur ++ ", delta: " ++ fmt delta ++
    ", suspicious PIDs: " ++ pidsRepr pids ++ ")"

/-- Warning of inotify_watcher.py lines 186-190 (known file, no crypto PIDs). -/
def highKnownMsg (fmt : ℝ → String) (full_path : String)
    (prev cur delta : ℝ) : String :=
  "High entropy detected: " ++ full_path ++
    " (" ++ fmt prev ++ " -> " ++ fmt cur ++ ", delta: " ++ fmt delta ++ ")"

/-- `InotifyWatcher._detect_entropy_anomaly` (inotify_watcher.py, lines
138-192).  `readResult` is the outcome of `open` + `read` (`none` = `OSError`);
`cur` and `base` are the results of `_get_urandom_readers()` and the stored
`_baseline_readers`.  Returns the new state and the warnings logged. -/
noncomputable def detect_entropy_anomaly (fmt : ℝ → String) (st : WatcherState)
    (full_path : String) (readResult : Option (List Byte))
    (cur base : Finset ℕ) : WatcherState × List String :=
  match readResult with
  | none => (st, [deletedMsg full_path])
  | some data =>
    if data = [] then
      (st, [emptyMsg full_path])
    else
      let current_entropy := shannon_entropy data
      let crypto_pids := cur \ base
      let warnings : List String :=
        match st.file_entropy full_path with
        | none =>
          if 7.5 < current_entropy then
            if crypto_pids.Nonempty then
              [cryptoNewMsg fmt full_path current_entropy crypto_pids]
            else
              [newHighMsg fmt full_path current_entropy]
          else []
        | some prev_entropy =>
          let delta := current_entropy - prev_entropy
          if 7.5 < current_entropy ∨ 1.5 < delta then
            if crypto_pids.Nonempty then
              [cryptoKnownMsg fmt full_path prev_entropy current_entropy
                delta crypto_pids]
            else
              [highKnownMsg fmt full_path prev_entropy current_entropy delta]
          else []
      (⟨fun p => if p = full_path then some current_entropy
          else st.file_entropy p⟩,
        warnings)

/-! ### Monitors (monitors.py) and startup (iron_dome.py) -/

/-- Severity of an emitted log record. -/
inductive LogLevel where
  | info
  | warning
  | critical
deriving DecidableEq

/-- One emitted log record. -/
structure LogRecord where
  level : LogLevel
  msg : String
deriving DecidableEq

/-- Message of monitors.py lines 25-27 (note the trailing blank). -/
def memoryCriticalMsg (memory_usage : ℕ) : String :=
  "Memory limit exceeded: " ++ Nat.repr memory_usage ++ " MB / 100 MB "

/-- Message of monitors.py line 29. -/
def memoryHighMsg (memory_usage : ℕ) : String :=
  "Memory usage high: " ++ Nat.repr memory_usage ++ " MB / 100 MB"

/-- Message of monitors.py line 31. -/
def memoryRoutineMsg (memory_usage : ℕ) : String :=
  "Memory usage: " ++ Nat.repr memory_usage ++ " MB / 100 MB"

/-- One iteration of `memory_usage_monitoring` (monitors.py, lines 20-32),
given the sampled RSS in whole megabytes. -/
def memory_usage_monitoring_step (memory_usage : ℕ) : LogRecord :=
  if 100 < memory_usage then ⟨.critical, memoryCriticalMsg memory_usage⟩
  else if 80 < memory_usage then ⟨.info, memoryHighMsg memory_usage⟩
  else ⟨.info, memoryRoutineMsg memory_usage⟩

/-- One parsed line of `/proc/diskstats`: device major and minor numbers
(columns 1-2) and the "sectors read" counter (column 6, `parts[5]`). -/
structure DiskStat where
  major : ℕ
  minor : ℕ
  sectors_read : ℕ

/-- monitors.py line 6. -/
def PHYSICAL_DISK_MAJORS : List ℕ := [8, 65, 66, 67, 252, 253, 259]

/-- `get_disk_sectors_read` (monitors.py, lines 35-45) over the parsed
contents of `/proc/diskstats`. -/
def get_disk_sectors_read (stats : List DiskStat) : ℕ :=
  ((stats.filter fun s =>
      PHYSICAL_DISK_MAJORS.contains s.major && (s.minor == 0)).map
    DiskStat.sectors_read).sum

/-- Message of monitors.py line 65. -/
def diskWarnMsg (fmt : ℝ → String) (rate : ℝ) : String :=
  "High disk read activity: " ++ fmt rate ++ " MB/s"

/-- One iteration of the loop of `disk_read_abuse_monitoring` (monitors.py,
lines 48-68), given the two sector-counter samples and the two wall-clock
timestamps. -/
noncomputable def disk_read_abuse_monitoring_step (fmt : ℝ → String)
    (prev_sectors_read current_sectors_read : ℕ)
    (prev_timestamp current_timestamp : ℝ) : List String :=
  let sectors_delta : ℤ :=
    (current_sectors_read : ℤ) - (prev_sectors_read : ℤ)
  let time_delta : ℝ := current_timestamp - prev_timestamp
  let bytes_read : ℝ := (sectors_delta : ℝ) * 512
  let mb_read : ℝ := bytes_read / (1024 * 1024)
  let read_rate_mb_s : ℝ := mb_read / time_delta
  if 100 < read_rate_mb_s then [diskWarnMsg fmt read_rate_mb_s] else []

/-- Outcome of the startup sequence of `main` (iron_dome.py, lines 40-50):
either the fatal path (critical log, `ValueError` caught, `sys.exit(1)`) or
entry into the event loop. -/
inductive StartupResult where
  | fatalExit : List LogRecord → ℕ → StartupResult
  | enterEventLoop : StartupResult
deriving DecidableEq

/-- The empty-path-set check of `main` (iron_dome.py, lines 40-50), applied
to the watcher's monitored path set produced by the construction walk. -/
def main_startup_check (monitored_paths : List String) : StartupResult :=
  if monitored_paths = [] then
    StartupResult.fatalExit
      [⟨LogLevel.critical, "No valid path to monitor - shutting down"⟩] 1
  else StartupResult.enterEventLoop

/-! ### Helper lemmas about substring containment -/

theorem containsStr_left {s sub : String} (t : String)
    (h : containsStr s sub) : containsStr (s ++ t) sub := by
  obtain ⟨u, v, huv⟩ := h
  exact ⟨u, v ++ t.data, by rw [String.data_append, ← huv]; simp⟩

theorem containsStr_right {t sub : String} (s : String)
    (h : containsStr t sub) : containsStr (s ++ t) sub := by
  obtain ⟨u, v, huv⟩ := h
  exact ⟨s.data ++ u, v, by rw [String.data_append, ← huv]; simp⟩

theorem containsStr_self (s : String) : containsStr s s :=
  ⟨[], [], by simp⟩

theorem containsStr_joinSep {l : List String} {s : String} (h : s ∈ l) :
    containsStr (joinSep l) s := by
  induction l with
  | nil => cases h
  | cons a rest ih =>
    cases rest with
    | nil =>
      rw [List.mem_singleton] at h
      subst h
      exact containsStr_self s
    | cons b t =>
      rcases List.mem_cons.1 h with h | h
      · subst h
        exact containsStr_left _ (containsStr_left _ (containsStr_self s))
      · exact containsStr_right _ (ih h)

theorem containsStr_pidsRepr {pids : Finset ℕ} {p : ℕ} (h : p ∈ pids) :
    containsStr (pidsRepr pids) (Nat.repr p) := by
  unfold pidsRepr
  refine containsStr_left _ (containsStr_right _ (containsStr_joinSep ?_))
  exact List.mem_map_of_mem _ ((Finset.mem_sort _).2 h)

/-! ### Evaluation of the detector's branches -/

theorem detect_warnings_new (fmt : ℝ → String) (st : WatcherState)
    (F : String) (data : List Byte) (cur base : Finset ℕ)
    (hd : data ≠ []) (hnew : st.file_entropy F = none) :
    (detect_entropy_anomaly fmt st F (some data) cur base).2 =
      if 7.5 < shannon_entropy data then
        if (cur \ base).Nonempty then
          [cryptoNewMsg fmt F (shannon_entropy data) (cur \ base)]
        else [newHighMsg fmt F (shannon_entropy data)]
      else [] := by
  simp only [detect_entropy_anomaly]
  rw [if_neg hd]
  simp only [hnew]

theorem detect_warnings_known (fmt : ℝ → String) (st : WatcherState)
    (F : String) (data : List Byte) (cur base : Finset ℕ) (prev : ℝ)
    (hd : data ≠ []) (hprev : st.file_entropy F = some prev) :
    (detect_entropy_anomaly fmt st F (some data) cur base).2 =
      if 7.5 < shannon_entropy data ∨ 1.5 < shannon_entropy data - prev then
        if (cur \ base).Nonempty then
          [cryptoKnownMsg fmt F prev (shannon_entropy data)
            (shannon_entropy data - prev) (cur \ base)]
        else [highKnownMsg fmt F prev (shannon_entropy data)
          (shannon_entropy data - prev)]
      else [] := by
  simp only [detect_entropy_anomaly]
  rw [if_neg hd]
  simp only [hprev]

/-! ### Containment facts about the warning texts -/

theorem cryptoNewMsg_contains_entropy (fmt : ℝ → String) (p : String) (e : ℝ)
    (pids : Finset ℕ) : containsStr (cryptoNewMsg fmt p e pids) "entropy" := by
  unfold cryptoNewMsg
  apply containsStr_left
  apply containsStr_left
  apply containsStr_left
  apply containsStr_left
  apply containsStr_right
  decide

theorem newHighMsg_contains_entropy (fmt : ℝ → String) (p : String) (e : ℝ) :
    containsStr (newHighMsg fmt p e) "entropy" := by
  unfold newHighMsg
  apply containsStr_left
  apply containsStr_left
  apply containsStr_left
  apply containsStr_left
  decide

theorem cryptoKnownMsg_contains (fmt : ℝ → String) (p : String)
    (prev cur delta : ℝ) (pids : Finset ℕ) :
    containsStr (cryptoKnownMsg fmt p prev cur delta pids) "detected" ∧
    containsStr (cryptoKnownMsg fmt p prev cur delta pids) (fmt prev) ∧
    containsStr (cryptoKnownMsg fmt p prev cur delta pids) (fmt cur) ∧
    containsStr (cryptoKnownMsg fmt p prev cur delta pids) (fmt delta) := by
  unfold cryptoKnownMsg
  refine ⟨?_, ?_, ?_, ?_⟩
  · iterate 10 apply containsStr_left
    decide
  · iterate 7 apply containsStr_left
    exact containsStr_right _ (containsStr_self _)
  · iterate 5 apply containsStr_left
    exact containsStr_right _ (containsStr_self _)
  · iterate 3 apply containsStr_left
    exact containsStr_right _ (containsStr_self _)

theorem highKnownMsg_contains (fmt : ℝ → String) (p : String)
    (prev cur delta : ℝ) :
    containsStr (highKnownMsg fmt p prev cur delta) "detected" ∧
    containsStr (highKnownMsg fmt p prev cur delta) (fmt prev) ∧
    containsStr (highKnownMsg fmt p prev cur delta) (fmt cur) ∧
    containsStr (highKnownMsg fmt p prev cur delta) (fmt delta) := by
  unfold highKnownMsg
  refine ⟨?_, ?_, ?_, ?_⟩
  · iterate 8 apply containsStr_left
    decide
  · iterate 5 apply containsStr_left
    exact containsStr_right _ (containsStr_self _)
  · iterate 3 apply containsStr_left
    exact containsStr_right _ (containsStr_self _)
  · apply containsStr_left
    exact containsStr_right _ (containsStr_self _)

theorem cryptoNewMsg_contains_crypto (fmt : ℝ → String) (p : String) (e : ℝ)
    (pids : Finset ℕ) :
    containsStr (cryptoNewMsg fmt p e pids) "Cryptographic activity" := by
  unfold cryptoNewMsg
  iterate 6 apply containsStr_left
  decide

theorem cryptoKnownMsg_contains_crypto (fmt : ℝ → String) (p : String)
    (prev cur delta : ℝ) (pids : Finset ℕ) :
    containsStr (cryptoKnownMsg fmt p prev cur delta pids)
      "Cryptographic activity" := by
  unfold cryptoKnownMsg
  iterate 10 apply containsStr_left
  decide

theorem cryptoNewMsg_contains_pid (fmt : ℝ → String) (pth : String) (e : ℝ)
    {pids : Finset ℕ} {p : ℕ} (hp : p ∈ pids) :
    containsStr (cryptoNewMsg fmt pth e pids) (Nat.repr p) := by
  unfold cryptoNewMsg
  apply containsStr_left
  apply containsStr_right
  exact containsStr_pidsRepr hp

theorem cryptoKnownMsg_contains_pid (fmt : ℝ → String) (pth : String)
    (prev cur delta : ℝ) {pids : Finset ℕ} {p : ℕ} (hp : p ∈ pids) :
    containsStr (cryptoKnownMsg fmt pth prev cur delta pids) (Nat.repr p) := by
  unfold cryptoKnownMsg
  apply containsStr_left
  apply containsStr_right
  exact containsStr_pidsRepr hp

/-! ### Theorems -/

/-- Claim C1: after a close-after-write event on path `F` whose re-read
succeeds with non-empty data, the anomaly-detection step leaves the baseline
mapping `F` to the Shannon entropy of that data, for every prior state (so
regardless of whether `F` was already present and of any warning). -/
theorem baseline_update_law (fmt : ℝ → String) (st : WatcherState)
    (F : String) (data : List Byte) (cur base : Finset ℕ)
    (hd : data ≠ []) :
    ((detect_entropy_anomaly fmt st F (some data) cur base).1).file_entropy F
      = some (shannon_entropy data) := by
  simp only [detect_entropy_anomaly]
  rw [if_neg hd]
  simp

/-- Witness for C1 at a concrete input. -/
theorem baseline_update_law_witness :
    ((detect_entropy_anomaly (fun _ => "") ⟨fun _ => none⟩ "f"
        (some [(0 : Byte)]) ∅ ∅).1).file_entropy "f"
      = some (shannon_entropy [(0 : Byte)]) :=
  baseline_update_law _ _ _ _ _ _ (by decide)

/-- Claim C2: for a close-after-write event on a path not in the baseline
whose re-read yields non-empty data with entropy `E`: exactly one warning is
emitted iff `E > 7.5`, every emitted warning contains the substring
"entropy", the wording is the cryptographic-activity variant when the excess
random-reader set is non-empty and the new-file-high-entropy variant
otherwise, and if `E ≤ 7.5` nothing is emitted. -/
theorem new_file_alarm (fmt : ℝ → String) (st : WatcherState) (F : String)
    (data : List Byte) (cur base : Finset ℕ)
    (hd : data ≠ []) (hnew : st.file_entropy F = none) :
    ((detect_entropy_anomaly fmt st F (some data) cur base).2.length = 1
        ↔ 7.5 < shannon_entropy data) ∧
    (shannon_entropy data ≤ 7.5 →
      (detect_entropy_anomaly fmt st F (some data) cur base).2 = []) ∧
    (∀ m ∈ (detect_entropy_anomaly fmt st F (some data) cur base).2,
      containsStr m "entropy") ∧
    (7.5 < shannon_entropy data →
      (detect_entropy_anomaly fmt st F (some data) cur base).2 =
        if (cur \ base).Nonempty then
          [cryptoNewMsg fmt F (shannon_entropy data) (cur \ base)]
        else [newHighMsg fmt F (shannon_entropy data)]) := by
  rw [detect_warnings_new fmt st F data cur base hd hnew]
  by_cases hE : 7.5 < shannon_entropy data
  · rw [if_pos hE]
    by_cases hne : (cur \ base).Nonempty
    · rw [if_pos hne]
      refine ⟨by simp [hE], fun h => absurd hE (not_lt.2 h), ?_, fun _ => rfl⟩
      intro m hm
      rw [List.mem_singleton] at hm
      subst hm
      exact cryptoNewMsg_contains_entropy fmt F _ _
    · rw [if_neg hne]
      refine ⟨by simp [hE], fun h => absurd hE (not_lt.2 h), ?_, fun _ => rfl⟩
      intro m hm
      rw [List.mem_singleton] at hm
      subst hm
      exact newHighMsg_contains_entropy fmt F _
  · rw [if_neg hE]
    exact ⟨by simp [hE], fun _ => rfl, by simp, fun h => absurd h hE⟩

/-- Witness for C2 at a concrete input. -/
theorem new_file_alarm_witness :
    ((detect_entropy_anomaly (fun _ => "") ⟨fun _ => none⟩ "f"
        (some [(0 : Byte)]) ∅ ∅).2.length = 1
        ↔ 7.5 < shannon_entropy [(0 : Byte)]) ∧
    (shannon_entropy [(0 : Byte)] ≤ 7.5 →
      (detect_entropy_anomaly (fun _ => "") ⟨fun _ => none⟩ "f"
        (some [(0 : Byte)]) ∅ ∅).2 = []) ∧
    (∀ m ∈ (detect_entropy_anomaly (fun _ => "") ⟨fun _ => none⟩ "f"
        (some [(0 : Byte)]) ∅ ∅).2, containsStr m "entropy") ∧
    (7.5 < shannon_entropy [(0 : Byte)] →
      (detect_entropy_anomaly (fun _ => "") ⟨fun _ => none⟩ "f"
        (some [(0 : Byte)]) ∅ ∅).2 =
        if ((∅ : Finset ℕ) \ ∅).Nonempty then
          [cryptoNewMsg (fun _ => "") "f" (shannon_entropy [(0 : Byte)])
            ((∅ : Finset ℕ) \ ∅)]
        else [newHighMsg (fun _ => "") "f" (shannon_entropy [(0 : Byte)])]) :=
  new_file_alarm (fun _ => "") ⟨fun _ => none⟩ "f" [(0 : Byte)] ∅ ∅
    (by decide) rfl

/-- Claim C3: for a close-after-write event on a path already in the baseline
with previous entropy `prev`, whose re-read yields non-empty data with
entropy `E` and `Δ = E − prev`: exactly one warning is emitted iff
`E > 7.5 ∨ Δ > 1.5`; every emitted warning contains the substring "detected"
and reports `prev`, `E` and `Δ`; otherwise nothing is emitted; in particular
`prev = 0.5` and `E > 2.0` always emit one warning. -/
theorem delta_alarm (fmt : ℝ → String) (st : WatcherState) (F : String)
    (data : List Byte) (cur base : Finset ℕ) (prev : ℝ)
    (hd : data ≠ []) (hprev : st.file_entropy F = some prev) :
    ((detect_entropy_anomaly fmt st F (some data) cur base).2.length = 1
        ↔ (7.5 < shannon_entropy data ∨ 1.5 < shannon_entropy data - prev)) ∧
    (shannon_entropy data ≤ 7.5 → shannon_entropy data - prev ≤ 1.5 →
      (detect_entropy_anomaly fmt st F (some data) cur base).2 = []) ∧
    (∀ m ∈ (detect_entropy_anomaly fmt st F (some data) cur base).2,
      containsStr m "detected" ∧ containsStr m (fmt prev) ∧
      containsStr m (fmt (shannon_entropy data)) ∧
      containsStr m (fmt (shannon_entropy data - prev))) ∧
    (prev = 0.5 → 2.0 < shannon_entropy data →
      (detect_entropy_anomaly fmt st F (some data) cur base).2.length = 1)
    := by
  rw [detect_warnings_known fmt st F data cur base prev hd hprev]
  by_cases hE : 7.5 < shannon_entropy data ∨ 1.5 < shannon_entropy data - prev
  · rw [if_pos hE]
    by_cases hne : (cur \ base).Nonempty
    · rw [if_pos hne]
      refine ⟨by simp [hE], fun h1 h2 => absurd hE (by push_neg; exact ⟨h1, h2⟩),
        ?_, fun _ _ => rfl⟩
      intro m hm
      rw [List.mem_singleton] at hm
      subst hm
      exact cryptoKnownMsg_contains fmt F prev _ _ _
    · rw [if_neg hne]
      refine ⟨by simp [hE], fun h1 h2 => absurd hE (by push_neg; exact ⟨h1, h2⟩),
        ?_, fun _ _ => rfl⟩
      intro m hm
      rw [List.mem_singleton] at hm
      subst hm
      exact highKnownMsg_contains fmt F prev _ _
  · rw [if_neg hE]
    refine ⟨by simp [hE], fun _ _ => rfl, by simp, fun hp hgt => absurd ?_ hE⟩
    subst hp
    exact Or.inr (by linarith)

/-- Witness for C3 at a concrete input. -/
theorem delta_alarm_witness :
    ((detect_entropy_anomaly (fun _ => "") ⟨fun _ => some 0.5⟩ "f"
        (some [(0 : Byte)]) ∅ ∅).2.length = 1
        ↔ (7.5 < shannon_entropy [(0 : Byte)]
            ∨ 1.5 < shannon_entropy [(0 : Byte)] - 0.5)) ∧
    (shannon_entropy [(0 : Byte)] ≤ 7.5 →
      shannon_entropy [(0 : Byte)] - 0.5 ≤ 1.5 →
      (detect_entropy_anomaly (fun _ => "") ⟨fun _ => some 0.5⟩ "f"
        (some [(0 : Byte)]) ∅ ∅).2 = []) ∧
    (∀ m ∈ (detect_entropy_anomaly (fun _ => "") ⟨fun _ => some 0.5⟩ "f"
        (some [(0 : Byte)]) ∅ ∅).2,
      containsStr m "detected" ∧ containsStr m ((fun (_ : ℝ) => "") 0.5) ∧
      containsStr m ((fun (_ : ℝ) => "") (shannon_entropy [(0 : Byte)])) ∧
      containsStr m
        ((fun (_ : ℝ) => "") (shannon_entropy [(0 : Byte)] - 0.5))) ∧
    ((0.5 : ℝ) = 0.5 → 2.0 < shannon_entropy [(0 : Byte)] →
      (detect_entropy_anomaly (fun _ => "") ⟨fun _ => some 0.5⟩ "f"
        (some [(0 : Byte)]) ∅ ∅).2.length = 1) :=
  delta_alarm (fun _ => "") ⟨fun _ => some 0.5⟩ "f" [(0 : Byte)] ∅ ∅ 0.5
    (by decide) rfl

/-- Claim C4: a close-after-write event whose re-read fails emits exactly the
one warning tagged "deleted"; one whose re-read returns zero bytes emits
exactly the one warning tagged "empty"; in both cases the watcher state (the
whole baseline) is returned unchanged. -/
theorem deleted_empty_reporting (fmt : ℝ → String) (st : WatcherState)
    (F : String) (cur base : Finset ℕ) :
    (detect_entropy_anomaly fmt st F none cur base = (st, [deletedMsg F]) ∧
      containsStr (deletedMsg F) "deleted") ∧
    (detect_entropy_anomaly fmt st F (some []) cur base = (st, [emptyMsg F]) ∧
      containsStr (emptyMsg F) "empty") := by
  refine ⟨⟨rfl, ?_⟩, ⟨?_, ?_⟩⟩
  · exact containsStr_left F (by decide)
  · simp [detect_entropy_anomaly]
  · exact containsStr_left F (by decide)

set_option maxRecDepth 10000 in
/-- Counterexample to claim C5 as stated: a concrete close-after-write event
that emits the cryptographic-activity warning (the excess random-reader set
is `\x7b1\x7d`, non-empty) whose text does NOT contain the lowercase substring
"cryptographic activity" — the code prints "Cryptographic activity" with a
capital C (inotify_watcher.py lines 165, 180). -/
theorem crypto_correlation_counterexample :
    (detect_entropy_anomaly (fun _ => "") ⟨fun _ =>
        some (shannon_entropy [(0 : Byte)] - 2)⟩ "f"
        (some [(0 : Byte)]) {1} ∅).2 =
      [cryptoKnownMsg (fun _ => "") "f" (shannon_entropy [(0 : Byte)] - 2)
        (shannon_entropy [(0 : Byte)])
        (shannon_entropy [(0 : Byte)] - (shannon_entropy [(0 : Byte)] - 2))
        (({1} : Finset ℕ) \ ∅)] ∧
    ((({1} : Finset ℕ) \ ∅)).Nonempty ∧
    ¬ containsStr
      (cryptoKnownMsg (fun _ => "") "f" (shannon_entropy [(0 : Byte)] - 2)
        (shannon_entropy [(0 : Byte)])
        (shannon_entropy [(0 : Byte)] - (shannon_entropy [(0 : Byte)] - 2))
        (({1} : Finset ℕ) \ ∅))
      "cryptographic activity" := by
  refine ⟨?_, by simp, ?_⟩
  · rw [detect_warnings_known _ _ _ _ _ _ _ (by decide) rfl,
      if_pos (Or.inr (by linarith)), if_pos (by simp)]
  · have hmsg : cryptoKnownMsg (fun _ => "") "f"
        (shannon_entropy [(0 : Byte)] - 2) (shannon_entropy [(0 : Byte)])
        (shannon_entropy [(0 : Byte)] - (shannon_entropy [(0 : Byte)] - 2))
        (({1} : Finset ℕ) \ ∅) =
        "Cryptographic activity detected: f ( -> , delta: " ++
          ", suspicious PIDs: \x7b1\x7d)" := by
      unfold cryptoKnownMsg pidsRepr
      rw [Finset.sdiff_empty, Finset.sort_singleton]
      rfl
    rw [hmsg]
    decide

/-- Claim C5 (amended): whenever the detector emits a warning on a
close-after-write event with non-empty excess random-reader set `C`, that
warning is the cryptographic-activity variant: its text contains the
substring "Cryptographic activity" (capitalised as the code prints it) and,
for each process identifier in `C`, its decimal string representation. -/
theorem crypto_correlation_amended (fmt : ℝ → String) (st : WatcherState)
    (F : String) (data : List Byte) (cur base : Finset ℕ)
    (hd : data ≠ []) (hC : (cur \ base).Nonempty)
    (halarm : (detect_entropy_anomaly fmt st F (some data) cur base).2 ≠ []) :
    ∃ m, (detect_entropy_anomaly fmt st F (some data) cur base).2 = [m] ∧
      containsStr m "Cryptographic activity" ∧
      ∀ p ∈ cur \ base, containsStr m (Nat.repr p) := by
  cases hfe : st.file_entropy F with
  | none =>
    rw [detect_warnings_new fmt st F data cur base hd hfe] at halarm ⊢
    by_cases hE : 7.5 < shannon_entropy data
    · rw [if_pos hE, if_pos hC]
      exact ⟨_, rfl, cryptoNewMsg_contains_crypto fmt F _ _,
        fun p hp => cryptoNewMsg_contains_pid fmt F _ hp⟩
    · rw [if_neg hE] at halarm
      exact absurd rfl halarm
  | some prev =>
    rw [detect_warnings_known fmt st F data cur base prev hd hfe] at halarm ⊢
    by_cases hE : 7.5 < shannon_entropy data
        ∨ 1.5 < shannon_entropy data - prev
    · rw [if_pos hE, if_pos hC]
      exact ⟨_, rfl, cryptoKnownMsg_contains_crypto fmt F _ _ _ _,
        fun p hp => cryptoKnownMsg_contains_pid fmt F _ _ _ hp⟩
    · rw [if_neg hE] at halarm
      exact absurd rfl halarm

/-- Witness for the amended C5 at a concrete input. -/
theorem crypto_correlation_amended_witness :
    ∃ m, (detect_entropy_anomaly (fun _ => "") ⟨fun _ =>
        some (shannon_entropy [(0 : Byte)] - 2)⟩ "f"
        (some [(0 : Byte)]) {1} ∅).2 = [m] ∧
      containsStr m "Cryptographic activity" ∧
      ∀ p ∈ ({1} : Finset ℕ) \ ∅, containsStr m (Nat.repr p) :=
  crypto_correlation_amended (fun _ => "") ⟨fun _ =>
      some (shannon_entropy [(0 : Byte)] - 2)⟩ "f" [(0 : Byte)] {1} ∅
    (by decide) (by simp)
    (by rw [detect_warnings_known _ _ _ _ _ _ _ (by decide) rfl,
          if_pos (Or.inr (by linarith)), if_pos (by simp)]
        simp)

theorem memoryHighMsg_ne_routine (m : ℕ) :
    memoryHighMsg m ≠ memoryRoutineMsg m := by
  intro h
  have hlen := congrArg String.length h
  simp only [memoryHighMsg, memoryRoutineMsg, String.length_append] at hlen
  have h1 : ("Memory usage high: ").length = 19 := rfl
  have h2 : ("Memory usage: ").length = 14 := rfl
  rw [h1, h2] at hlen
  omega

/-- Claim C7: one memory-monitor iteration on a sampled RSS of `M` whole
megabytes emits a critical record iff `M > 100` (whose message contains
"Memory limit exceeded"), the informational "high" record iff
`80 < M ≤ 100`, and the routine informational record otherwise. -/
theorem memory_monitor_semantics (M : ℕ) :
    ((memory_usage_monitoring_step M).level = LogLevel.critical ↔ 100 < M) ∧
    (100 < M →
      memory_usage_monitoring_step M =
        ⟨LogLevel.critical, memoryCriticalMsg M⟩ ∧
      containsStr (memoryCriticalMsg M) "Memory limit exceeded") ∧
    (memory_usage_monitoring_step M = ⟨LogLevel.info, memoryHighMsg M⟩ ↔
      (80 < M ∧ M ≤ 100)) ∧
    (memory_usage_monitoring_step M = ⟨LogLevel.info, memoryRoutineMsg M⟩ ↔
      M ≤ 80) := by
  have hcrit : containsStr (memoryCriticalMsg M) "Memory limit exceeded" := by
    unfold memoryCriticalMsg
    apply containsStr_left
    apply containsStr_left
    decide
  by_cases h1 : 100 < M
  · rw [memory_usage_monitoring_step, if_pos h1]
    refine ⟨by simp [h1], fun _ => ⟨rfl, hcrit⟩, ?_, ?_⟩
    · simp only [LogRecord.mk.injEq]
      constructor
      · rintro ⟨h, -⟩; cases h
      · rintro ⟨-, h⟩; omega
    · simp only [LogRecord.mk.injEq]
      constructor
      · rintro ⟨h, -⟩; cases h
      · intro h; omega
  · by_cases h2 : 80 < M
    · rw [memory_usage_monitoring_step, if_neg h1, if_pos h2]
      refine ⟨by simp [h1], fun h => absurd h h1, by simp [h2, le_of_not_lt h1],
        ?_⟩
      simp only [LogRecord.mk.injEq, true_and]
      constructor
      · intro h; exact absurd h (memoryHighMsg_ne_routine M)
      · intro h; omega
    · rw [memory_usage_monitoring_step, if_neg h1, if_neg h2]
      refine ⟨by simp [h1], fun h => absurd h h1, ?_, by simp [le_of_not_lt h2]⟩
      simp only [LogRecord.mk.injEq, true_and]
      constructor
      · intro h; exact absurd h.symm (memoryHighMsg_ne_routine M)
      · intro h; omega

/-- Claim C8: each disk-monitor sample sums the "sectors read" column over
exactly the `/proc/diskstats` entries whose major is in
`\x7b8, 65, 66, 67, 252, 253, 259\x7d` and whose minor is 0, and one iteration
emits a warning iff `(sectors_delta × 512) / (wall_time_delta × 2^20) > 100`
MB/s. -/
theorem disk_monitor_semantics (stats : List DiskStat) (fmt : ℝ → String)
    (ps cs : ℕ) (pt ct : ℝ) :
    get_disk_sectors_read stats =
      ((stats.filter fun s =>
          decide (s.major ∈ ({8, 65, 66, 67, 252, 253, 259} : Finset ℕ) ∧
            s.minor = 0)).map DiskStat.sectors_read).sum ∧
    (disk_read_abuse_monitoring_step fmt ps cs pt ct ≠ [] ↔
      100 < (((cs : ℤ) - (ps : ℤ) : ℤ) : ℝ) * 512 / ((ct - pt) * 2 ^ 20)) ∧
    (disk_read_abuse_monitoring_step fmt ps cs pt ct).length ≤ 1 := by
  have hrate : (((cs : ℤ) - (ps : ℤ) : ℤ) : ℝ) * 512 / (1024 * 1024) /
      (ct - pt) =
      (((cs : ℤ) - (ps : ℤ) : ℤ) : ℝ) * 512 / ((ct - pt) * 2 ^ 20) := by
    rw [div_div, mul_comm ((1024 : ℝ) * 1024) (ct - pt)]
    norm_num
  refine ⟨?_, ?_, ?_⟩
  · unfold get_disk_sectors_read
    congr 1
    congr 1
    apply List.filter_congr
    intro s _
    simp [PHYSICAL_DISK_MAJORS, List.contains, Finset.mem_insert,
      decide_eq_true_eq]
    tauto
  · rw [disk_read_abuse_monitoring_step]
    simp only [← hrate]
    split_ifs with h
    · simpa using h
    · simpa using h
  · rw [disk_read_abuse_monitoring_step]
    split_ifs <;> simp

/-- Claim C9: if the monitored path set is empty after the construction walk,
`main` logs a critical record and the process exits with the non-zero status
1; if it is non-empty, startup proceeds into the event loop. -/
theorem empty_path_set_fatal (paths : List String) :
    (paths = [] →
      main_startup_check paths =
        StartupResult.fatalExit
          [⟨LogLevel.critical, "No valid path to monitor - shutting down"⟩]
          1 ∧
      (1 : ℕ) ≠ 0) ∧
    (paths ≠ [] → main_startup_check paths = StartupResult.enterEventLoop) := by
  constructor
  · intro h
    subst h
    exact ⟨rfl, one_ne_zero⟩
  · intro h
    rw [main_startup_check, if_neg h]

/-! ### Entropy estimator: bounds -/

theorem sum_count_eq_length (data : List Byte) :
    ∑ b : Byte, data.count b = data.length := by
  induction data with
  | nil => simp
  | cons x xs ih =>
    simp [List.count_cons, Finset.sum_add_distrib, ih, Finset.sum_ite_eq']

theorem neg_mul_logb_le (p : ℝ) (hp0 : 0 < p) :
    -(p * Real.logb 2 p) ≤ (1 / 256 - p) / Real.log 2 + 8 * p := by
  have hlog2 : 0 < Real.log 2 := Real.log_pos (by norm_num)
  have hp' : p ≠ 0 := hp0.ne'
  have h1 : Real.log ((256 * p)⁻¹) ≤ (256 * p)⁻¹ - 1 :=
    Real.log_le_sub_one_of_pos (by positivity)
  have h2 : Real.log p⁻¹ = Real.log ((256 * p)⁻¹) + Real.log 256 := by
    rw [← Real.log_mul (by positivity) (by norm_num)]
    congr 1
    field_simp
  have h256 : Real.log 256 = 8 * Real.log 2 := by
    have h : (256 : ℝ) = 2 ^ 8 := by norm_num
    rw [h, Real.log_pow]
    push_cast
    ring
  have key : -(p * Real.logb 2 p) = p * Real.log p⁻¹ / Real.log 2 := by
    rw [Real.logb, Real.log_inv]
    ring
  rw [key, h2, h256]
  have hb : p * (Real.log ((256 * p)⁻¹) + 8 * Real.log 2) ≤
      p * (((256 * p)⁻¹ - 1) + 8 * Real.log 2) := by
    apply mul_le_mul_of_nonneg_left _ hp0.le
    linarith
  calc p * (Real.log ((256 * p)⁻¹) + 8 * Real.log 2) / Real.log 2
      ≤ p * (((256 * p)⁻¹ - 1) + 8 * Real.log 2) / Real.log 2 := by
        gcongr
    _ = (1 / 256 - p) / Real.log 2 + 8 * p := by
        field_simp
        ring

theorem shannon_entropy_le_eight (data : List Byte) (hd : data ≠ []) :
    shannon_entropy data ≤ 8 := by
  have hn : 0 < data.length := List.length_pos.2 hd
  have hnR : (0 : ℝ) < (data.length : ℝ) := by exact_mod_cast hn
  set S := Finset.univ.filter fun b : Byte => data.count b ≠ 0 with hS
  have hent : shannon_entropy data =
      ∑ b ∈ S, -((data.count b : ℝ) / (data.length : ℝ) *
        Real.logb 2 ((data.count b : ℝ) / (data.length : ℝ))) := by
    rw [shannon_entropy, hS, Finset.sum_filter]
    apply Finset.sum_congr rfl
    intro b _
    by_cases h : data.count b = 0 <;> simp [h]
  have hsum_c : ∑ b ∈ S, (data.count b : ℝ) = (data.length : ℝ) := by
    have h1 : ∑ b ∈ S, data.count b = data.length := by
      rw [hS, Finset.sum_filter_ne_zero, sum_count_eq_length]
    exact_mod_cast h1
  have hsum_p : ∑ b ∈ S, (data.count b : ℝ) / (data.length : ℝ) = 1 := by
    rw [← Finset.sum_div, hsum_c, div_self hnR.ne']
  have hterm : ∀ b ∈ S,
      -((data.count b : ℝ) / (data.length : ℝ) *
        Real.logb 2 ((data.count b : ℝ) / (data.length : ℝ))) ≤
      (1 / 256 - (data.count b : ℝ) / (data.length : ℝ)) / Real.log 2 +
        8 * ((data.count b : ℝ) / (data.length : ℝ)) := by
    intro b hb
    have hbne : data.count b ≠ 0 := (Finset.mem_filter.1 hb).2
    exact neg_mul_logb_le _
      (div_pos (by exact_mod_cast Nat.pos_of_ne_zero hbne) hnR)
  have hle := Finset.sum_le_sum hterm
  rw [← hent] at hle
  have hcard : (S.card : ℝ) ≤ 256 := by
    have h1 := Finset.card_filter_le (Finset.univ : Finset Byte)
      (fun b : Byte => data.count b ≠ 0)
    have h2 : (Finset.univ : Finset Byte).card = 256 := by
      rw [Finset.card_univ, Fintype.card_fin]
    rw [h2] at h1
    exact_mod_cast h1
  have hRHS : ∑ b ∈ S,
      ((1 / 256 - (data.count b : ℝ) / (data.length : ℝ)) / Real.log 2 +
        8 * ((data.count b : ℝ) / (data.length : ℝ))) =
      ((S.card : ℝ) / 256 - 1) / Real.log 2 + 8 := by
    rw [Finset.sum_add_distrib, ← Finset.sum_div, Finset.sum_sub_distrib,
      Finset.sum_const, ← Finset.mul_sum, hsum_p]
    simp [nsmul_eq_mul]
    ring
  rw [hRHS] at hle
  have hlog2 : 0 < Real.log 2 := Real.log_pos (by norm_num)
  have hfrac : ((S.card : ℝ) / 256 - 1) / Real.log 2 ≤ 0 := by
    apply div_nonpos_of_nonpos_of_nonneg
    · have h3 : (S.card : ℝ) / 256 ≤ 1 := by
        rw [div_le_one (by norm_num)]
        exact hcard
      linarith
    · exact hlog2.le
  linarith

theorem shannon_entropy_nonneg (data : List Byte) :
    0 ≤ shannon_entropy data := by
  unfold shannon_entropy
  apply Finset.sum_nonneg
  intro b _
  split_ifs with h
  · exact le_refl 0
  · have hc : 0 < data.count b := Nat.pos_of_ne_zero h
    have hn : 0 < data.length := lt_of_lt_of_le hc (List.count_le_length _ _)
    have hp0 : 0 < (data.count b : ℝ) / (data.length : ℝ) :=
      div_pos (by exact_mod_cast hc) (by exact_mod_cast hn)
    have hp1 : (data.count b : ℝ) / (data.length : ℝ) ≤ 1 := by
      rw [div_le_one (by exact_mod_cast hn)]
      exact_mod_cast List.count_le_length _ _
    have hlog : Real.logb 2 ((data.count b : ℝ) / (data.length : ℝ)) ≤ 0 :=
      Real.logb_nonpos (by norm_num) hp0.le hp1
    have := mul_nonpos_of_nonneg_of_nonpos hp0.le hlog
    linarith

theorem shannon_entropy_const (data : List Byte) (b0 : Byte)
    (hall : ∀ x ∈ data, x = b0) : shannon_entropy data = 0 := by
  unfold shannon_entropy
  apply Finset.sum_eq_zero
  intro b _
  split_ifs with h
  · rfl
  · have hb : b ∈ data := by
      rw [← List.count_pos_iff]
      exact Nat.pos_of_ne_zero h
    have hbb : b = b0 := hall b hb
    subst hbb
    have hcnt : data.count b = data.length :=
      List.count_eq_length.2 (fun y hy => (hall y hy).symm)
    have hn : (data.length : ℝ) ≠ 0 := by
      have hne : data ≠ [] := by
        intro e
        subst e
        exact h (by simp)
      exact_mod_cast (List.length_pos.2 hne).ne'
    rw [hcnt, div_self hn, Real.logb_one]
    ring

/-- Claim C6: for every byte buffer of length at least 1 the Shannon entropy
estimator returns a value in `[0, 8]` (finite by construction in the
real-number model), and for every buffer whose bytes are all identical the
result is exactly 0. -/
theorem entropy_bounds (data : List Byte) (hd : data ≠ []) :
    0 ≤ shannon_entropy data ∧ shannon_entropy data ≤ 8 ∧
    ∀ b : Byte, (∀ x ∈ data, x = b) → shannon_entropy data = 0 :=
  ⟨shannon_entropy_nonneg data, shannon_entropy_le_eight data hd,
    fun b h => shannon_entropy_const data b h⟩

/-- Witness for C6 at a concrete input. -/
theorem entropy_bounds_witness :
    0 ≤ shannon_entropy [(37 : Byte)] ∧ shannon_entropy [(37 : Byte)] ≤ 8 ∧
    ∀ b : Byte, (∀ x ∈ [(37 : Byte)], x = b) →
      shannon_entropy [(37 : Byte)] = 0 :=
  entropy_bounds [(37 : Byte)] (by decide)

/-- Claim C10: on the empty byte buffer the Shannon entropy estimator is
total and returns exactly 0: every one of the 256 per-byte terms takes the
guarded zero branch (`possible[i] == 0` → `continue`), so the probability
division is never reached and no division by zero occurs. -/
theorem entropy_empty_total : shannon_entropy [] = 0 := by
  unfold shannon_entropy
  apply Finset.sum_eq_zero
  intro b _
  simp

end IronDome
